import Mathlib

/-!
Verification of the dashboard RAG pipeline.

The repository is a Dash application (`src/Dashboard/app.py`) over a
retrieval-augmented-generation pipeline assembled in
`src/Dashboard/rag_setup.py`.  The pipeline components themselves
(PDF loader, text splitter, vector store, LLM) are external library
calls; the repository code consists of the startup block that builds
the chain, the `update_response` callback and the `download_pdf`
callback.  Those are embedded below; the chunker and the vector index,
whose code is not part of the repository, are modelled from the
specification where a claim needs them.
-/

namespace Dashboard

/- String literals appearing in src/Dashboard/app.py. -/

/-- The store value returned by `update_response` when `rag_chain is None`
(app.py line 131, second returned component). -/
def msgNotInitStored : String := "RAG system not initialized."

/-- The displayed paragraph text returned by `update_response` when
`rag_chain is None` (app.py line 131, first returned component). -/
def msgNotInitShown : String := "RAG system not initialized. Check server logs for errors."

/-- The leading text of the message built at app.py line 138
(`f"An error occurred: {e}"`). -/
def msgErrorHead : String := "An error occurred: "

/-- The file name passed to `dcc.send_bytes` (app.py line 155). -/
def reportFileName : String := "analysis_report.pdf"

/-- The empty string, the value `update_response` writes back into the
question input field. -/
def emptyStr : String := ""

/-- The chain produced by `create_rag_chain` (rag_setup.py lines 9-37):
invoking it on a question either yields the result string
(`response['result']`) or raises an exception, modelled as `Except`
carrying the exception's text. -/
abbrev RagChain := String → Except String String

/-- The three outputs of the `update_response` callback
(app.py lines 121-140): the `rag-response` children, the
`rag-response-store` data and the `question-input` value.  `none`
in the first two encodes `dash.no_update`.  `invoked` counts the calls
made to `rag_chain.invoke` while computing the outputs. -/
structure UpdateOutput where
  shown : Option String
  stored : Option String
  inputValue : String
  invoked : Nat
  deriving DecidableEq

/-- The body of `update_response` (app.py lines 129-140), with the
exception branch of the `try` block resolved by matching on the
`Except` result of the chain. -/
def updateResponse (ragChain : Option RagChain) (question : Option String) :
    UpdateOutput :=
  match ragChain with
  | none => ⟨some msgNotInitShown, some msgNotInitStored, emptyStr, 0⟩
  | some chain =>
    match question with
    | some q =>
      if q ≠ emptyStr then
        match chain q with
        | .ok t => ⟨some t, some t, emptyStr, 1⟩
        | .error e =>
          ⟨some (msgErrorHead ++ e), some (msgErrorHead ++ e), emptyStr, 1⟩
      else ⟨none, none, emptyStr, 0⟩
    | none => ⟨none, none, emptyStr, 0⟩

/-- Python's `try ... except Exception as e` around a computation whose
only raising step is modelled by `Except`: every raised exception is
routed to the handler. -/
def pyTryCatch {α : Type} (body : Except String α) (handler : String → α) :
    Except String α :=
  match body with
  | .ok r => .ok r
  | .error e => .ok (handler e)

/-- `update_response` with the exception flow kept explicit: the result
is an `Except` whose `error` case would be an exception escaping the
callback.  The `try` block at app.py lines 133-139 is `pyTryCatch`. -/
def updateResponseE (ragChain : Option RagChain) (question : Option String) :
    Except String UpdateOutput :=
  match ragChain with
  | none => .ok ⟨some msgNotInitShown, some msgNotInitStored, emptyStr, 0⟩
  | some chain =>
    match question with
    | some q =>
      if q ≠ emptyStr then
        pyTryCatch
          (do
            let t ← chain q
            pure ⟨some t, some t, emptyStr, 1⟩)
          (fun e => ⟨some (msgErrorHead ++ e), some (msgErrorHead ++ e), emptyStr, 1⟩)
      else .ok ⟨none, none, emptyStr, 0⟩
    | none => .ok ⟨none, none, emptyStr, 0⟩

/-- The Dash component state read and written by `update_response`:
the displayed response text, the `rag-response-store` data (absent
until first written) and the question input value (absent until the
user types or the callback writes it). -/
structure ViewState where
  shownResponse : String
  storedResponse : Option String
  questionInput : Option String

/-- Dash applies each callback output to its component; `none`
(`dash.no_update`) leaves the component unchanged. -/
def applyUpdate (v : ViewState) (out : UpdateOutput) : ViewState :=
  { shownResponse := out.shown.getD v.shownResponse
    storedResponse :=
      match out.stored with
      | some s => some s
      | none => v.storedResponse
    questionInput := some out.inputValue }

/-- The process state: the module global `rag_chain` (app.py lines
19-27, `None` when startup failed) together with the Dash components. -/
structure AppState where
  ragChain : Option RagChain
  view : ViewState

/-- One click of the submit button: `update_response` runs on the
current question input; the module global `rag_chain` is read but never
reassigned anywhere in app.py. -/
def submitStep (st : AppState) : AppState :=
  { ragChain := st.ragChain
    view := applyUpdate st.view (updateResponse st.ragChain st.view.questionInput) }

/- Startup (app.py lines 19-27). -/

/-- Exceptions that `create_rag_chain(DOCUMENT_PATH)` or the import may
raise at startup: the two classes named in the `except` clauses, and
any other exception class (carried with its message). -/
inductive StartupExn where
  | fileNotFound
  | importErr
  | other (msg : String)
  deriving DecidableEq

/-- The startup block of app.py lines 19-27: `try` building the chain,
`except FileNotFoundError` and `except ImportError` set `rag_chain =
None`; any other exception is not caught and propagates out of the
module top level. -/
def initRagChain (create : Except StartupExn RagChain) :
    Except StartupExn (Option RagChain) :=
  match create with
  | .ok c => .ok (some c)
  | .error .fileNotFound => .ok none
  | .error .importErr => .ok none
  | .error (.other m) => .error (.other m)

/- The download_pdf callback (app.py lines 142-155). -/

/-- The content `create_pdf_report` (app.py lines 39-75) assembles: the
graph image bytes and the analysis text placed in the story.  Layout is
presentation detail outside the data captured here. -/
structure PdfReport where
  graphImage : List Nat
  analysisText : String
  deriving DecidableEq

/-- `create_pdf_report(graph_image_buffer, rag_response)`:
builds the report from the image bytes and the response text. -/
def createPdfReport (img : List Nat) (resp : String) : PdfReport := ⟨img, resp⟩

/-- Stand-in for `pio.to_image(graph_figure, format="png")`: a
deterministic byte rendering of the figure (chart rendering is outside
the repository's code). -/
def figureToImage (figure : String) : List Nat := figure.toList.map Char.toNat

/-- The value handed to `dcc.Download`: file content and name. -/
structure DownloadData where
  content : PdfReport
  fileName : String
  deriving DecidableEq

/-- The body of `download_pdf` (app.py lines 149-155): `none` encodes
`dash.no_update`; a download is produced only past the guard
`if n_clicks is None or not rag_response_text`. -/
def downloadPdf (nClicks : Option Nat) (figure : String) (stored : Option String) :
    Option DownloadData :=
  match nClicks with
  | none => none
  | some _ =>
    match stored with
    | none => none
    | some t =>
      if t = emptyStr then none
      else some ⟨createPdfReport (figureToImage figure) t, reportFileName⟩

/- Chunker.  The repository delegates chunking to
`RecursiveCharacterTextSplitter(chunk_size=1000, chunk_overlap=200)`
(rag_setup.py line 18), whose code is not part of the repository. -/

/-- A page of the loaded document: its text and page number (spec 3). -/
structure Page where
  text : List Char
  pageNum : Nat
  deriving DecidableEq

/-- A chunk: a contiguous text span, its source page number and its
chunk index within the page (spec 3). -/
structure Chunk where
  text : List Char
  pageNum : Nat
  chunkIdx : Nat
  deriving DecidableEq

/-- Modelled from the spec: the Chunker algorithm of spec 4.2 — for each
page, walk a sliding window of length `chunkSize` advancing by `step =
chunkSize - overlap` characters until the page text is exhausted; the
final window may be shorter than `chunkSize`.  The implementation
(`RecursiveCharacterTextSplitter`) is library code not in src.  The
fuel argument bounds the recursion; called with fuel = length of the
text it is never exhausted early when `chunkSize > 0`. -/
def slideChunks (chunkSize step : Nat) : Nat → List Char → List (List Char)
  | 0, _ => []
  | fuel + 1, s =>
    if s.length ≤ chunkSize then [s]
    else s.take chunkSize :: slideChunks chunkSize step fuel (s.drop step)

/-- Modelled from the spec: split one page's text into overlapping
chunks (spec 4.2). -/
def splitPage (s : List Char) (chunkSize overlap : Nat) : List (List Char) :=
  slideChunks chunkSize (chunkSize - overlap) s.length s

/-- Modelled from the spec: chunk every page; chunk boundaries never
cross a page boundary, and each chunk records its page number and its
index within the page (spec 4.2, spec 3). -/
def splitPages (pages : List Page) (chunkSize overlap : Nat) : List Chunk :=
  (pages.map fun p =>
    (splitPage p.text chunkSize overlap).enum.map fun ic =>
      ⟨ic.2, p.pageNum, ic.1⟩).flatten

/-- The relation holding between consecutive chunks of one page: the
earlier chunk is full length, and its final `overlap` characters are
exactly the first `overlap` characters of the later chunk (which has at
least `overlap` characters, so exactly `overlap` characters are
shared). -/
def overlapRel (chunkSize overlap : Nat) (a b : List Char) : Prop :=
  a.length = chunkSize ∧
  a.drop (chunkSize - overlap) = b.take overlap ∧
  overlap ≤ b.length

/- Vector index.  The repository delegates it to
`Chroma.from_documents` / `as_retriever` (rag_setup.py lines 22-26),
library code not in src; modelled from spec 4.4. -/

/-- An entry of the vector index: an embedding paired with its source
chunk (spec 3, VectorIndexEntry). -/
structure IndexEntry where
  embedding : List Int
  chunk : Chunk
  deriving DecidableEq

/-- Modelled from the spec: the error raised by `build` on an empty
corpus (spec 4.4, `EmptyCorpusError`). -/
inductive BuildErr where
  | emptyCorpus
  deriving DecidableEq

/-- Modelled from the spec: the error raised by `query` on `k ≤ 0`
(spec 4.4, `InvalidArgument`). -/
inductive QueryErr where
  | invalidArgument
  deriving DecidableEq

/-- The vector index owning its entries in insertion order (spec 3). -/
structure VectorIndex where
  entries : List IndexEntry
  deriving DecidableEq

/-- Modelled from the spec: `build` constructs the index once and fails
with `EmptyCorpusError` if the entry sequence is empty (spec 4.4). -/
def buildIndex (entries : List IndexEntry) : Except BuildErr VectorIndex :=
  match entries with
  | [] => .error .emptyCorpus
  | _ => .ok ⟨entries⟩

/-- Insert `a` into `l` before the first element `b` with `le a b`. -/
def insertBy {α : Type} (le : α → α → Bool) (a : α) : List α → List α
  | [] => [a]
  | b :: l => if le a b then a :: b :: l else b :: insertBy le a l

/-- Insertion sort by the boolean relation `le`. -/
def sortBy {α : Type} (le : α → α → Bool) : List α → List α
  | [] => []
  | a :: l => insertBy le a (sortBy le l)

/-- Modelled from the spec: the similarity score of two embeddings.
Spec 4.4 fixes only "cosine similarity, or equivalent metric"; the dot
product serves as the concrete executable metric — the properties
proved below do not depend on the choice. -/
def dotScore (v w : List Int) : Int := (List.zipWith (· * ·) v w).sum

/-- Ranking order on (insertion position, score, entry): higher score
first, ties broken by insertion order, earlier entry first (spec 4.4). -/
def rankLE (x y : Nat × Int × IndexEntry) : Bool :=
  decide (y.2.1 < x.2.1 ∨ (x.2.1 = y.2.1 ∧ x.1 ≤ y.1))

/-- The strict ranking between adjacent query results: strictly higher
score first, or equal scores with the strictly earlier insertion
position first — "ordered non-increasingly by score, ties broken by
insertion order" (spec 4.4). -/
def rankStrict (x y : Nat × Int × IndexEntry) : Prop :=
  y.2.1 < x.2.1 ∨ (x.2.1 = y.2.1 ∧ x.1 < y.1)

/-- Each entry with its insertion position and its score against the
query vector. -/
def scoredEntries (idx : VectorIndex) (v : List Int) :
    List (Nat × Int × IndexEntry) :=
  idx.entries.enum.map fun ie => (ie.1, dotScore v ie.2.embedding, ie.2)

/-- Modelled from the spec: `query(vector, k)` returns the `k` entries
with highest similarity, ordered descending by score, ties broken by
insertion order; all entries when `k` exceeds their number; fails with
`InvalidArgument` when `k ≤ 0` (spec 4.4). -/
def queryIndex (idx : VectorIndex) (v : List Int) (k : Nat) :
    Except QueryErr (List (IndexEntry × Int)) :=
  if k = 0 then .error .invalidArgument
  else .ok (((sortBy rankLE (scoredEntries idx v)).take k).map fun x =>
    (x.2.2, x.2.1))

/- Concrete inputs used by witnesses and counterexamples. -/

/-- A chain whose invocation always raises, carrying message `eBoom`. -/
def eBoom : String := "boom"

/-- A chain that raises on every question. -/
def chainErrEx : RagChain := fun _ => .error eBoom

/-- A sample question. -/
def qEx : String := "What is the total revenue?"

/-- App state: initialized chain that will raise, question typed in. -/
def stEx : AppState := ⟨some chainErrEx, ⟨emptyStr, none, some qEx⟩⟩

/-- App state: initialized chain, no question typed. -/
def stEmptyEx : AppState := ⟨some chainErrEx, ⟨qEx, some qEx, none⟩⟩

/-- A sample figure value. -/
def figEx : String := "figure"

/-- A sample stored answer. -/
def ansEx : String := "Revenue grew."

/-- Message of a startup exception that is neither FileNotFoundError
nor ImportError. -/
def connErrMsg : String := "ConnectionError: Ollama backend unreachable"

/-- Two example pages for the chunker witnesses. -/
def pagesEx : List Page := [⟨("abcdefgh".toList), 1⟩, ⟨("xy".toList), 2⟩]

/-- A sample chunk for index entries. -/
def chunkEx : Chunk := ⟨("aa".toList), 1, 0⟩

/-- An index entry; two copies of it give two entries with equal
similarity scores against every query vector. -/
def entryEx : IndexEntry := ⟨[1], chunkEx⟩

/-- An index holding the same entry twice (a document can contain the
same text twice, giving two chunks with identical embeddings). -/
def idxEx : VectorIndex := ⟨[entryEx, entryEx]⟩

/-! Theorems. -/

/-- Claim C1: if pipeline initialization failed (`rag_chain is None`),
then for every subsequent question the callback returns the fixed
degraded message — "RAG system not initialized." as the stored
response, its displayed variant on screen — and makes no call to the
chain (no retrieval or generation is attempted). -/
theorem answer_degraded_after_failed_init (question : Option String) :
    updateResponse none question =
      ⟨some msgNotInitShown, some msgNotInitStored, emptyStr, 0⟩ := rfl

/-- Claim C1, witness: the degraded response at a concrete question. -/
theorem answer_degraded_after_failed_init_witness :
    updateResponse none (some qEx) =
      ⟨some msgNotInitShown, some msgNotInitStored, emptyStr, 0⟩ :=
  answer_degraded_after_failed_init (some qEx)

/-- Claim C4: for every chain state and question, the exception-explicit
semantics of `update_response` returns `ok` — no exception crosses the
callback boundary — and the value returned is exactly the total
function `updateResponse`. -/
theorem answer_never_raises (ragChain : Option RagChain) (question : Option String) :
    updateResponseE ragChain question = Except.ok (updateResponse ragChain question) := by
  cases ragChain with
  | none => rfl
  | some chain =>
    cases question with
    | none => rfl
    | some q =>
      by_cases hq : q = emptyStr
      · simp [updateResponseE, updateResponse, hq]
      · cases h : chain q with
        | ok t =>
          simp [updateResponseE, updateResponse, hq, pyTryCatch, h,
            Bind.bind, Except.bind, Pure.pure, Except.pure]
        | error e =>
          simp [updateResponseE, updateResponse, hq, pyTryCatch, h,
            Bind.bind, Except.bind]

/-- Claim C4, witness: the exception-raising chain at the sample
question still yields `ok`. -/
theorem answer_never_raises_witness :
    updateResponseE (some chainErrEx) (some qEx) =
      Except.ok (updateResponse (some chainErrEx) (some qEx)) :=
  answer_never_raises (some chainErrEx) (some qEx)

/-- Claim C3, counterexample: a startup exception that is neither
`FileNotFoundError` nor `ImportError` (here a connection error from an
unreachable backend, raised while building the index) is not converted
into the Failed state (`rag_chain = None`): the startup block re-raises
it, so the host process crashes instead of degrading. -/
theorem startup_backend_error_uncaught :
    initRagChain (Except.error (StartupExn.other connErrMsg)) ≠ Except.ok none ∧
    initRagChain (Except.error (StartupExn.other connErrMsg)) =
      Except.error (StartupExn.other connErrMsg) := by
  constructor
  · intro h
    simp [initRagChain] at h
  · rfl

/-- Claim C3 (amended): only the two exception classes named in the
`except` clauses — FileNotFoundError and ImportError — send the
orchestrator to the Failed state (`rag_chain = None`); any other
startup exception propagates out of the startup block.  Once set, the
chain value is never reassigned by any later callback, so a Failed
state is permanent for the process. -/
theorem startup_failure_handling :
    initRagChain (Except.error StartupExn.fileNotFound) = Except.ok none ∧
    initRagChain (Except.error StartupExn.importErr) = Except.ok none ∧
    (∀ m, initRagChain (Except.error (StartupExn.other m)) =
      Except.error (StartupExn.other m)) ∧
    (∀ c, initRagChain (Except.ok c) = Except.ok (some c)) ∧
    (∀ st : AppState, (submitStep st).ragChain = st.ragChain) :=
  ⟨rfl, rfl, fun _ => rfl, fun _ => rfl, fun _ => rfl⟩

/-- Claim C2: if the chain raises during a query while initialized and a
question is present, the callback stores and shows the error-describing
message, the chain state is unchanged, and every subsequent question is
processed exactly as it would have been before the failed query. -/
theorem answer_error_keeps_ready (st : AppState) (chain : RagChain) (q e : String)
    (hc : st.ragChain = some chain) (hq : st.view.questionInput = some q)
    (hne : q ≠ emptyStr) (herr : chain q = Except.error e) :
    (submitStep st).ragChain = st.ragChain ∧
    (submitStep st).view.shownResponse = msgErrorHead ++ e ∧
    (submitStep st).view.storedResponse = some (msgErrorHead ++ e) ∧
    (∀ q2, updateResponse (submitStep st).ragChain q2 =
      updateResponse st.ragChain q2) := by
  refine ⟨rfl, ?_, ?_, fun q2 => rfl⟩ <;>
    simp [submitStep, applyUpdate, updateResponse, hc, hq, hne, herr]

/-- Claim C2, witness: a concrete initialized state whose chain raises
on the sample question. -/
theorem answer_error_keeps_ready_witness :
    stEx.ragChain = some chainErrEx ∧
    stEx.view.questionInput = some qEx ∧
    qEx ≠ emptyStr ∧
    chainErrEx qEx = Except.error eBoom ∧
    ((submitStep stEx).ragChain = stEx.ragChain ∧
     (submitStep stEx).view.shownResponse = msgErrorHead ++ eBoom ∧
     (submitStep stEx).view.storedResponse = some (msgErrorHead ++ eBoom) ∧
     (∀ q2, updateResponse (submitStep stEx).ragChain q2 =
       updateResponse stEx.ragChain q2)) :=
  ⟨rfl, rfl, by decide, rfl,
    answer_error_keeps_ready stEx chainErrEx qEx eBoom rfl rfl (by decide) rfl⟩

/-- Claim C9: when the chain is initialized and the submitted question
is absent or empty, the displayed response and the stored response are
both left unchanged (`dash.no_update`) while the question input is
still cleared to the empty string. -/
theorem answer_empty_question_frame (st : AppState) (chain : RagChain)
    (hc : st.ragChain = some chain)
    (hq : st.view.questionInput = none ∨ st.view.questionInput = some emptyStr) :
    (submitStep st).view.shownResponse = st.view.shownResponse ∧
    (submitStep st).view.storedResponse = st.view.storedResponse ∧
    (submitStep st).view.questionInput = some emptyStr := by
  rcases hq with h | h <;>
    simp [submitStep, applyUpdate, updateResponse, hc, h]

/-- Claim C9, witness: a concrete initialized state with no question
typed in. -/
theorem answer_empty_question_frame_witness :
    stEmptyEx.ragChain = some chainErrEx ∧
    (stEmptyEx.view.questionInput = none ∨
      stEmptyEx.view.questionInput = some emptyStr) ∧
    ((submitStep stEmptyEx).view.shownResponse = stEmptyEx.view.shownResponse ∧
     (submitStep stEmptyEx).view.storedResponse = stEmptyEx.view.storedResponse ∧
     (submitStep stEmptyEx).view.questionInput = some emptyStr) :=
  ⟨rfl, Or.inl rfl,
    answer_empty_question_frame stEmptyEx chainErrEx rfl (Or.inl rfl)⟩

/-- Claim C10: the download callback produces no download exactly when
no click has happened or no non-empty response text is stored; and any
produced download carries the stored text into the report, under the
fixed file name. -/
theorem download_requires_stored_answer (nClicks : Option Nat) (figure : String)
    (stored : Option String) :
    (downloadPdf nClicks figure stored = none ↔
      nClicks = none ∨ stored = none ∨ stored = some emptyStr) ∧
    (∀ d, downloadPdf nClicks figure stored = some d →
      ∃ t, stored = some t ∧ t ≠ emptyStr ∧
        d.content.analysisText = t ∧ d.fileName = reportFileName) := by
  cases nClicks with
  | none => simp [downloadPdf]
  | some n =>
    cases stored with
    | none => simp [downloadPdf]
    | some t =>
      by_cases h : t = emptyStr
      · simp [downloadPdf, h]
      · constructor
        · simp [downloadPdf, h]
        · intro d hd
          refine ⟨t, rfl, h, ?_, ?_⟩ <;>
            simp [downloadPdf, h, createPdfReport] at hd <;>
            simp [← hd, createPdfReport]

/-- Claim C10, witness: a click with a stored non-empty answer. -/
theorem download_requires_stored_answer_witness :
    (downloadPdf (some 1) figEx (some ansEx) = none ↔
      (some 1 : Option Nat) = none ∨ (some ansEx : Option String) = none ∨
        some ansEx = some emptyStr) ∧
    (∀ d, downloadPdf (some 1) figEx (some ansEx) = some d →
      ∃ t, some ansEx = some t ∧ t ≠ emptyStr ∧
        d.content.analysisText = t ∧ d.fileName = reportFileName) :=
  download_requires_stored_answer (some 1) figEx (some ansEx)

/-- Every chunk the sliding window emits has length at most `chunkSize`. -/
theorem slideChunks_length_le (chunkSize step : Nat) :
    ∀ fuel s, ∀ c ∈ slideChunks chunkSize step fuel s, c.length ≤ chunkSize := by
  intro fuel
  induction fuel with
  | zero =>
    intro s c hc
    simp [slideChunks] at hc
  | succ fuel ih =>
    intro s c hc
    by_cases h : s.length ≤ chunkSize
    · simp [slideChunks, h] at hc
      subst hc
      exact h
    · simp [slideChunks, h] at hc
      rcases hc with rfl | hc
      · simp [List.length_take]
      · exact ih _ _ hc

/-- The first chunk the window emits on `s` is `s.take chunkSize`. -/
theorem slideChunks_head (chunkSize step fuel : Nat) (s : List Char) :
    (slideChunks chunkSize step (fuel + 1) s).head? = some (s.take chunkSize) := by
  by_cases h : s.length ≤ chunkSize
  · simp [slideChunks, h, List.take_of_length_le h]
  · simp [slideChunks, h]

/-- Consecutive chunks emitted by the window overlap in exactly
`overlap` characters. -/
theorem slideChunks_chain (chunkSize overlap : Nat) (hov : overlap < chunkSize) :
    ∀ fuel s, List.Chain' (overlapRel chunkSize overlap)
      (slideChunks chunkSize (chunkSize - overlap) fuel s) := by
  intro fuel
  induction fuel with
  | zero =>
    intro s
    simp [slideChunks]
  | succ fuel ih =>
    intro s
    by_cases h : s.length ≤ chunkSize
    · simp [slideChunks, h]
    · have hrw : slideChunks chunkSize (chunkSize - overlap) (fuel + 1) s =
        s.take chunkSize ::
          slideChunks chunkSize (chunkSize - overlap) fuel
            (s.drop (chunkSize - overlap)) := by
        simp [slideChunks, h]
      rw [hrw]
      refine List.Chain'.cons' (ih _) ?_
      intro b hb
      cases fuel with
      | zero => simp [slideChunks] at hb
      | succ fuel2 =>
        rw [slideChunks_head] at hb
        simp at hb
        subst hb
        refine ⟨?_, ?_, ?_⟩
        · simp [List.length_take]
          omega
        · rw [List.drop_take, List.take_take]
          congr 1
          omega
        · simp [List.length_take, List.length_drop]
          omega

/-- The second component of an element of `enumFrom` is an element of
the underlying list. -/
theorem snd_mem_of_mem_enumFrom {α : Type} :
    ∀ (n : Nat) (l : List α) (x : Nat × α), x ∈ l.enumFrom n → x.2 ∈ l := by
  intro n l
  induction l generalizing n with
  | nil =>
    intro x hx
    simp [List.enumFrom] at hx
  | cons a t ih =>
    intro x hx
    rw [List.enumFrom] at hx
    rcases List.mem_cons.mp hx with rfl | hx
    · exact List.mem_cons_self _ _
    · exact List.mem_cons_of_mem _ (ih (n + 1) x hx)

/-- Claim C5: for valid parameters (`chunk_size > 0`,
`0 ≤ overlap < chunk_size`, as at rag_setup.py line 18 with 1000/200),
every produced chunk has length at most `chunk_size`, and each pair of
consecutive chunks of the same page shares exactly `overlap`
characters: the earlier chunk is full and its final `overlap`
characters equal the first `overlap` characters of the later chunk. -/
theorem chunker_size_and_overlap (chunkSize overlap : Nat)
    (_hcs : 0 < chunkSize) (hov : overlap < chunkSize) (pages : List Page) :
    (∀ c ∈ splitPages pages chunkSize overlap, c.text.length ≤ chunkSize) ∧
    (∀ p ∈ pages, List.Chain' (overlapRel chunkSize overlap)
      (splitPage p.text chunkSize overlap)) := by
  constructor
  · intro c hc
    simp only [splitPages, List.mem_flatten, List.mem_map] at hc
    obtain ⟨l, ⟨p, hp, rfl⟩, hcl⟩ := hc
    obtain ⟨ic, hic, rfl⟩ := List.mem_map.mp hcl
    exact slideChunks_length_le chunkSize (chunkSize - overlap) p.text.length
      p.text ic.2 (snd_mem_of_mem_enumFrom 0 _ ic hic)
  · intro p _
    exact slideChunks_chain chunkSize overlap hov p.text.length p.text

/-- Claim C5, witness: concrete valid parameters and pages. -/
theorem chunker_size_and_overlap_witness :
    (0 : Nat) < 5 ∧ (2 : Nat) < 5 ∧
    ((∀ c ∈ splitPages pagesEx 5 2, c.text.length ≤ 5) ∧
     (∀ p ∈ pagesEx, List.Chain' (overlapRel 5 2) (splitPage p.text 5 2))) :=
  ⟨by decide, by decide, chunker_size_and_overlap 5 2 (by decide) (by decide) pagesEx⟩

/-- Claim C8: chunking is deterministic — identical page sequences and
identical parameters give identical chunk sequences. -/
theorem chunker_deterministic (pages1 pages2 : List Page) (cs1 cs2 ov1 ov2 : Nat)
    (hp : pages1 = pages2) (hcs : cs1 = cs2) (hov : ov1 = ov2) :
    splitPages pages1 cs1 ov1 = splitPages pages2 cs2 ov2 := by
  rw [hp, hcs, hov]

/-- Claim C8, witness: two runs on the concrete pages agree. -/
theorem chunker_deterministic_witness :
    pagesEx = pagesEx ∧ (5 : Nat) = 5 ∧ (2 : Nat) = 2 ∧
    splitPages pagesEx 5 2 = splitPages pagesEx 5 2 :=
  ⟨rfl, rfl, rfl, chunker_deterministic pagesEx pagesEx 5 5 2 2 rfl rfl rfl⟩

/-- Inserting an element is a permutation of consing it. -/
theorem insertBy_perm {α : Type} (le : α → α → Bool) (a : α) :
    ∀ l : List α, List.Perm (insertBy le a l) (a :: l) := by
  intro l
  induction l with
  | nil => exact List.Perm.refl _
  | cons b t ih =>
    by_cases h : le a b = true
    · simp only [insertBy, if_pos h]
      exact List.Perm.refl _
    · simp only [insertBy, if_neg h]
      exact (ih.cons b).trans (List.Perm.swap a b t)

/-- Sorting permutes the list. -/
theorem sortBy_perm {α : Type} (le : α → α → Bool) :
    ∀ l : List α, List.Perm (sortBy le l) l := by
  intro l
  induction l with
  | nil => exact List.Perm.refl _
  | cons a t ih =>
    show List.Perm (insertBy le a (sortBy le t)) (a :: t)
    exact (insertBy_perm le a (sortBy le t)).trans (ih.cons a)

/-- The head of an insertion is the new element or the old head. -/
theorem insertBy_head {α : Type} (le : α → α → Bool) (a : α) :
    ∀ l : List α,
      (insertBy le a l).head? = some a ∨ (insertBy le a l).head? = l.head? := by
  intro l
  cases l with
  | nil => left; rfl
  | cons b t =>
    by_cases h : le a b = true
    · left
      simp [insertBy, h]
    · right
      simp [insertBy, h]

/-- Inserting into a `le`-chain keeps it a chain, for total `le`. -/
theorem insertBy_chain {α : Type} (le : α → α → Bool)
    (htot : ∀ x y, le x y = false → le y x = true) (a : α) :
    ∀ l : List α, List.Chain' (fun x y => le x y = true) l →
      List.Chain' (fun x y => le x y = true) (insertBy le a l) := by
  intro l
  induction l with
  | nil =>
    intro _
    simp [insertBy]
  | cons b t ih =>
    intro hl
    by_cases h : le a b = true
    · simp only [insertBy, if_pos h]
      exact hl.cons h
    · simp only [insertBy, if_neg h]
      refine List.Chain'.cons' (ih hl.tail) ?_
      intro y hy
      rcases insertBy_head le a t with h2 | h2
      · rw [h2] at hy
        simp at hy
        subst hy
        have hf : le a b = false := by simpa using h
        exact htot a b hf
      · rw [h2] at hy
        exact hl.rel_head? hy

/-- The sorted list is a `le`-chain, for total `le`. -/
theorem sortBy_chain {α : Type} (le : α → α → Bool)
    (htot : ∀ x y, le x y = false → le y x = true) :
    ∀ l : List α, List.Chain' (fun x y => le x y = true) (sortBy le l) := by
  intro l
  induction l with
  | nil => simp [sortBy]
  | cons a t ih => exact insertBy_chain le htot a _ ih

/-- The ranking order is total. -/
theorem rankLE_total : ∀ x y, rankLE x y = false → rankLE y x = true := by
  intro x y h
  obtain ⟨i, s, e⟩ := x
  obtain ⟨j, r, f⟩ := y
  simp only [rankLE, decide_eq_false_iff_not, decide_eq_true_eq] at h ⊢
  omega

/-- The ranking order is compatible with the score ordering. -/
theorem rankLE_score : ∀ x y, rankLE x y = true → y.2.1 ≤ x.2.1 := by
  intro x y h
  obtain ⟨i, s, e⟩ := x
  obtain ⟨j, r, f⟩ := y
  simp only [rankLE, decide_eq_true_eq] at h
  show r ≤ s
  omega

/-- The first component of an element of `enumFrom n` is at least `n`. -/
theorem fst_lb_of_mem_enumFrom {α : Type} :
    ∀ (n : Nat) (l : List α) (x : Nat × α), x ∈ l.enumFrom n → n ≤ x.1 := by
  intro n l
  induction l generalizing n with
  | nil =>
    intro x hx
    simp [List.enumFrom] at hx
  | cons a t ih =>
    intro x hx
    rw [List.enumFrom] at hx
    rcases List.mem_cons.mp hx with rfl | hx
    · exact Nat.le_refl n
    · exact Nat.le_of_succ_le (ih (n + 1) x hx)

/-- An element of `enumFrom n` pairs a position with the list element
actually stored at that position. -/
theorem getElem?_of_mem_enumFrom {α : Type} :
    ∀ (n : Nat) (l : List α) (x : Nat × α), x ∈ l.enumFrom n →
      l[x.1 - n]? = some x.2 := by
  intro n l
  induction l generalizing n with
  | nil =>
    intro x hx
    simp [List.enumFrom] at hx
  | cons a t ih =>
    intro x hx
    rw [List.enumFrom] at hx
    rcases List.mem_cons.mp hx with rfl | hx
    · simp
    · have hlb : n + 1 ≤ x.1 := fst_lb_of_mem_enumFrom (n + 1) t x hx
      have hx1 : x.1 - n = (x.1 - (n + 1)) + 1 := by omega
      rw [hx1, List.getElem?_cons_succ]
      exact ih (n + 1) x hx

/-- A `rankLE`-chain whose insertion positions are pairwise distinct is
a `rankStrict`-chain: between adjacent elements the score strictly
drops, or the scores tie and the insertion position strictly grows. -/
theorem chain_rankStrict_of_nodup :
    ∀ l : List (Nat × Int × IndexEntry),
      List.Chain' (fun x y => rankLE x y = true) l →
      (l.map Prod.fst).Nodup → List.Chain' rankStrict l := by
  intro l
  induction l with
  | nil =>
    intro _ _
    simp
  | cons x t ih =>
    intro hc hn
    rw [List.map_cons] at hn
    have hn2 := List.nodup_cons.mp hn
    cases t with
    | nil => simp
    | cons y t2 =>
      refine List.Chain'.cons ?_ (ih hc.tail hn2.2)
      have hxy : rankLE x y = true := hc.rel_head
      have hne : x.1 ≠ y.1 := by
        intro h
        exact hn2.1
          (h ▸ List.mem_map_of_mem Prod.fst (List.mem_cons_self y t2))
      obtain ⟨i, s, e⟩ := x
      obtain ⟨j, r, f⟩ := y
      have hne2 : i ≠ j := hne
      simp only [rankLE, decide_eq_true_eq] at hxy
      show rankStrict (i, s, e) (j, r, f)
      simp only [rankStrict]
      omega

/-- Claim C6 (amended): for every query vector and every `k ≥ 1`, the
query succeeds and returns exactly `min(k, number of entries)` results;
the selected entries form a `rankStrict` chain — strictly descending
score, or tied score with strictly earlier insertion position first —
with each selected position holding exactly the entry stored there and
carrying its true similarity score, so the returned scores are
non-increasing (strictly descending whenever all scores are distinct);
and when `k` is at least (in particular, when it exceeds) the number of
stored entries, the returned entries are exactly all stored entries,
ordered by score. -/
theorem query_count_and_order (idx : VectorIndex) (v : List Int) (k : Nat)
    (hk : 1 ≤ k) :
    ∃ sel : List (Nat × Int × IndexEntry),
      queryIndex idx v k =
        Except.ok (sel.map fun x => (x.2.2, x.2.1)) ∧
      (sel.map fun x : Nat × Int × IndexEntry => (x.2.2, x.2.1)).length =
        min k idx.entries.length ∧
      List.Chain' rankStrict sel ∧
      (∀ x ∈ sel, idx.entries[x.1]? = some x.2.2 ∧
        x.2.1 = dotScore v x.2.2.embedding) ∧
      List.Chain' (fun a b : IndexEntry × Int => b.2 ≤ a.2)
        (sel.map fun x => (x.2.2, x.2.1)) ∧
      (idx.entries.length ≤ k →
        List.Perm ((sel.map fun x : Nat × Int × IndexEntry =>
          (x.2.2, x.2.1)).map Prod.fst) idx.entries) := by
  have hk0 : ¬ k = 0 := by omega
  have hperm : List.Perm (sortBy rankLE (scoredEntries idx v))
      (scoredEntries idx v) :=
    sortBy_perm _ _
  have hlen : (sortBy rankLE (scoredEntries idx v)).length =
      idx.entries.length := by
    rw [hperm.length_eq]
    simp [scoredEntries, List.enum]
  refine ⟨(sortBy rankLE (scoredEntries idx v)).take k, ?_, ?_, ?_, ?_, ?_, ?_⟩
  · simp [queryIndex, hk0]
  · simp [List.length_take, hlen]
  · apply chain_rankStrict_of_nodup
    · exact (sortBy_chain rankLE rankLE_total (scoredEntries idx v)).take k
    · rw [List.map_take]
      apply List.Nodup.sublist (List.take_sublist k _)
      apply (hperm.map Prod.fst).nodup_iff.mpr
      have hfst : (scoredEntries idx v).map Prod.fst =
          List.range' 0 idx.entries.length := by
        simp only [scoredEntries, List.map_map, List.enum]
        exact List.enumFrom_map_fst 0 idx.entries
      rw [hfst]
      exact List.nodup_range' 0 _
  · intro x hx
    have hx2 : x ∈ sortBy rankLE (scoredEntries idx v) :=
      List.mem_of_mem_take hx
    have hx3 : x ∈ scoredEntries idx v := hperm.mem_iff.mp hx2
    simp only [scoredEntries] at hx3
    obtain ⟨ie, hie, rfl⟩ := List.mem_map.mp hx3
    constructor
    · have hget := getElem?_of_mem_enumFrom 0 idx.entries ie hie
      simpa using hget
    · rfl
  · rw [List.chain'_map]
    exact ((sortBy_chain rankLE rankLE_total (scoredEntries idx v)).take k).imp
      fun a b hab => rankLE_score a b hab
  · intro hle
    have ht : (sortBy rankLE (scoredEntries idx v)).take k =
        sortBy rankLE (scoredEntries idx v) := by
      apply List.take_of_length_le
      rw [hlen]
      exact hle
    rw [ht, List.map_map]
    have hcomp : (Prod.fst ∘ fun x : Nat × Int × IndexEntry => (x.2.2, x.2.1)) =
        fun x : Nat × Int × IndexEntry => x.2.2 := rfl
    rw [hcomp]
    have hmap : (scoredEntries idx v).map
        (fun x : Nat × Int × IndexEntry => x.2.2) = idx.entries := by
      simp only [scoredEntries, List.map_map]
      exact List.enumFrom_map_snd 0 idx.entries
    have hmap2 : List.Perm ((scoredEntries idx v).map
        fun x : Nat × Int × IndexEntry => x.2.2) idx.entries := by
      rw [hmap]
    exact (hperm.map _).trans hmap2

/-- Claim C6, witness: the concrete index queried with `k = 2`. -/
theorem query_count_and_order_witness :
    1 ≤ 2 ∧
    (∃ sel : List (Nat × Int × IndexEntry),
      queryIndex idxEx ([1] : List Int) 2 =
        Except.ok (sel.map fun x => (x.2.2, x.2.1)) ∧
      (sel.map fun x : Nat × Int × IndexEntry => (x.2.2, x.2.1)).length =
        min 2 idxEx.entries.length ∧
      List.Chain' rankStrict sel ∧
      (∀ x ∈ sel, idxEx.entries[x.1]? = some x.2.2 ∧
        x.2.1 = dotScore ([1] : List Int) x.2.2.embedding) ∧
      List.Chain' (fun a b : IndexEntry × Int => b.2 ≤ a.2)
        (sel.map fun x => (x.2.2, x.2.1)) ∧
      (idxEx.entries.length ≤ 2 →
        List.Perm ((sel.map fun x : Nat × Int × IndexEntry =>
          (x.2.2, x.2.1)).map Prod.fst) idxEx.entries)) :=
  ⟨by omega, query_count_and_order idxEx ([1] : List Int) 2 (by omega)⟩

/-- Claim C6, counterexample: two stored entries with identical
embeddings tie on similarity, so the returned scores are not strictly
descending (the spec itself mandates insertion-order tie-breaks); and
`k = 0` yields `InvalidArgument` rather than `min(0, n) = 0` results. -/
theorem query_not_strict_counterexample :
    queryIndex idxEx ([1] : List Int) 2 =
      Except.ok [(entryEx, 1), (entryEx, 1)] ∧
    ¬ List.Chain' (fun a b : IndexEntry × Int => b.2 < a.2)
      [(entryEx, 1), (entryEx, 1)] ∧
    queryIndex idxEx ([1] : List Int) 0 =
      Except.error QueryErr.invalidArgument := by
  refine ⟨rfl, ?_, rfl⟩
  intro hch
  have h1 : (1 : Int) < 1 := hch.rel_head
  omega

/-- Claim C7: building the vector index from an empty entry sequence —
and only from an empty one — fails with `EmptyCorpusError`. -/
theorem build_empty_corpus (entries : List IndexEntry) :
    buildIndex entries = Except.error BuildErr.emptyCorpus ↔ entries = [] := by
  cases entries <;> simp [buildIndex]

/-- Claim C7, witness: the empty entry sequence. -/
theorem build_empty_corpus_witness :
    buildIndex [] = Except.error BuildErr.emptyCorpus ↔
      ([] : List IndexEntry) = [] :=
  build_empty_corpus []

end Dashboard
